import Mathlib

/-!
Verification of the utility layer of `src/kevin/main.cpp`, a
competitive-programming template: machine-integer bit helpers, vector
printing, variadic reading, debug rendering of pairs, the judge-mode
build flag, and the empty `solve` entry point.

Machine integers are embedded as bit patterns: an `int` value is a
natural number below `2 ^ 32`, a `long long` one below `2 ^ 64`; the
width `w` is 32 or 64 throughout.  Output streams are embedded as
character lists, the input stream as a list of tokens.
-/

namespace Kevin

/-- Value of the C++ expression `1ULL << b`: a 64-bit unsigned shift
(defined for shift amounts below 64, which every claim assumes). -/
def oneULL (b : Nat) : Nat := (1 <<< b) % 2 ^ 64

/-- Value of `~(1ULL << b)`: bitwise complement on 64 bits, embedded as
XOR with the all-ones 64-bit mask. -/
def notOneULL (b : Nat) : Nat := (2 ^ 64 - 1) ^^^ oneULL b

/-- Conversion of a 64-bit unsigned value to a `w`-bit integer pattern:
the casts `int(...)` and `ll(...)` in the source truncate modulo `2 ^ w`
(gcc semantics for out-of-range unsigned-to-signed conversion). -/
def toWidth (w x : Nat) : Nat := x % 2 ^ w

/-- Promotion of a signed `w`-bit pattern to `unsigned long long`: the
value modulo `2 ^ 64`, i.e. sign extension of the pattern.  This is what
happens to `a` inside the expression `a & (1ULL << b)` of `checkBit`. -/
def toULL (w a : Nat) : Nat := if a < 2 ^ (w - 1) then a else 2 ^ 64 - 2 ^ w + a

/-- C++ `setBit` (lines 96-97): `a |= int(1ULL << b)` resp. the `ll`
overload; returns the new value of `a` as a `w`-bit pattern. -/
def setBit (w a b : Nat) : Nat := a ||| toWidth w (oneULL b)

/-- C++ `clearBit` (lines 98-99): `a &= int(~(1ULL << b))`. -/
def clearBit (w a b : Nat) : Nat := a &&& toWidth w (notOneULL b)

/-- C++ `toggleBit` (lines 100-101): `a ^= int(1ULL << b)`. -/
def toggleBit (w a b : Nat) : Nat := a ^^^ toWidth w (oneULL b)

/-- C++ `checkBit` (lines 102-103): `return !!(a & (1ULL << b))`; the
double negation maps zero to 0 and any non-zero value to 1. -/
def checkBit (w a b : Nat) : Nat := if toULL w a &&& oneULL b = 0 then 0 else 1

/-- C++ `print` for vectors (line 116): the loop writes, for each index
`i` below `sz v`, the rendering of `v[i]` followed by the character
selected by the index expression on the two-character string of a space
and a newline — a space unless `i` is the last index, a newline when it
is.  Elements are taken already rendered as character lists (abstracting
the stream insertion), the loop is embedded as structural recursion, and
the last-index test `i = sz v - 1` becomes "the remaining tail is
empty". -/
def print : List (List Char) → List Char
  | [] => []
  | x :: t => x ++ ((if t = [] then '\n' else ' ') :: []) ++ print t

/-- Rendering described by the spec for `print`: the elements in index
order, a single space between consecutive elements, one newline after
the last element. -/
def printSpec (v : List (List Char)) : List Char :=
  (v.intersperse ([' '])).flatten ++ ('\n' :: [])

/-- Debug renderer for pairs (line 143): writes to the error stream, in
order, an opening brace, the first component's rendering, a comma, a
space, the second component's rendering, and a closing brace.  The
stream is threaded explicitly; `ra` and `rb` stand for the recursive
renderings produced by the calls on the two components. -/
def cerrPair (ra rb stream : List Char) : List Char :=
  ((((stream ++ ('\x7b' :: [])) ++ ra) ++ (',' :: ' ' :: [])) ++ rb) ++ ('\x7d' :: [])

/-- Where a standard stream of the process is connected. -/
inductive IOChannel where
  | standard : IOChannel
  | file : String → IOChannel
deriving DecidableEq

/-- Observable trace of one run of `main`: where standard input and
output are connected and what `main` itself writes to the error
stream. -/
structure MainTrace where
  inputFrom : IOChannel
  outputTo : IOChannel
  cerrOut : List Char
deriving DecidableEq

/-- Wall-clock timing line written to the error stream in local mode
(lines 184-186): a newline, the word Time with a colon and space, the
elapsed milliseconds, the unit, and a final newline (`endl` is redefined
to the newline string). -/
def timeLine (ms : Nat) : List Char :=
  ('\n' :: []) ++ "Time: ".toList ++ (toString ms).toList ++ "ms".toList ++ ('\n' :: [])

/-- Expansion of the debug printing facility as a function of the judge
flag (lines 146-155): without ONLINE_JUDGE the rendering is emitted to
the error stream; with ONLINE_JUDGE the expansion is an empty block and
the error stream is additionally disabled, so nothing is emitted. -/
def debugEmits (oj : Bool) (rendered : List Char) : List Char :=
  if oj then [] else rendered

/-- C++ `main` (lines 170-188) with the ONLINE_JUDGE build flag embedded
as the boolean `oj`: with the flag, standard input and output are left
untouched and nothing is written to the error stream; without it, they
are reopened onto the fixed local files and the timing line for the
measured duration `ms` is written to the error stream. -/
def mainRun (oj : Bool) (ms : Nat) : MainTrace :=
  if oj then
    { inputFrom := IOChannel.standard, outputTo := IOChannel.standard,
      cerrOut := [] }
  else
    { inputFrom := IOChannel.file "input.txt", outputTo := IOChannel.file "output.txt",
      cerrOut := timeLine ms }

/-- Program state visible to `solve`: the token stream still to be read
from standard input, and the text written so far to standard output and
to the error stream. -/
structure ProgState where
  cinTokens : List String
  coutText : List Char
  cerrText : List Char
deriving DecidableEq

/-- C++ `solve` (lines 166-168): the body contains no statements, so the
embedded state transformer performs none. -/
def solve (s : ProgState) : ProgState := s

/-- C++ variadic `read` (line 108): the fold expression extracts one
token per argument from the input stream, left to right.  Given the
number `n` of variables and the token stream, it returns the values
assigned to the arguments in order together with the remaining stream;
one extraction takes the head token. -/
def read : Nat → List String → List String × List String
  | 0, cin => ([], cin)
  | n + 1, cin =>
      let v := cin.headD ""
      let rest := read n cin.tail
      (v :: rest.1, rest.2)

/-- C++ `amin` (line 84): if `y < x` then `x` becomes `y`; returns the
new value of `x`. -/
def amin {α : Type} [LinearOrder α] (x y : α) : α := if y < x then y else x

/-- C++ `amax` (line 86): if `y > x` then `x` becomes `y`; returns the
new value of `x`. -/
def amax {α : Type} [LinearOrder α] (x y : α) : α := if y > x then y else x

/-! Helper lemmas about the bit model. -/

lemma oneULL_eq {b : Nat} (hb : b < 64) : oneULL b = 2 ^ b := by
  have h : (2 : Nat) ^ b < 2 ^ 64 := Nat.pow_lt_pow_right (by norm_num) hb
  rw [oneULL, Nat.shiftLeft_eq, one_mul, Nat.mod_eq_of_lt h]

lemma testBit_notOneULL_self {b : Nat} (hb : b < 64) :
    (notOneULL b).testBit b = false := by
  rw [notOneULL, oneULL_eq hb, Nat.testBit_xor, Nat.testBit_two_pow_sub_one,
    Nat.testBit_two_pow_self]
  simp [hb]

lemma testBit_toULL {w a b : Nat} (hw : w ≤ 64) (ha : a < 2 ^ w) (hb : b < w) :
    (toULL w a).testBit b = a.testBit b := by
  unfold toULL
  split
  · rfl
  · have hpow : 2 ^ w * 2 ^ (64 - w) = 2 ^ 64 := by
      rw [← pow_add]
      congr 1
      omega
    have hsplit : 2 ^ 64 - 2 ^ w + a = 2 ^ w * (2 ^ (64 - w) - 1) + a := by
      have h3 : 2 ^ w * (2 ^ (64 - w) - 1) = 2 ^ w * 2 ^ (64 - w) - 2 ^ w := by
        rw [Nat.mul_sub_one]
      omega
    rw [hsplit]
    have hmod : (2 ^ w * (2 ^ (64 - w) - 1) + a) % 2 ^ w = a := by
      rw [Nat.add_comm, Nat.add_mul_mod_self_left, Nat.mod_eq_of_lt ha]
    have h4 := Nat.testBit_mod_two_pow (2 ^ w * (2 ^ (64 - w) - 1) + a) w b
    rw [hmod] at h4
    rw [h4]
    simp [hb]

lemma and_oneULL_eq_zero_iff {x b : Nat} (hb : b < 64) :
    x &&& oneULL b = 0 ↔ x.testBit b = false := by
  rw [oneULL_eq hb]
  constructor
  · intro h
    have h2 : (x &&& 2 ^ b).testBit b = false := by
      rw [h]
      exact Nat.zero_testBit b
    simpa [Nat.testBit_and, Nat.testBit_two_pow_self] using h2
  · intro h
    apply Nat.eq_of_testBit_eq
    intro j
    rw [Nat.testBit_and, Nat.zero_testBit]
    by_cases hj : j = b
    · subst hj
      simp [h]
    · simp [Nat.testBit_two_pow_of_ne (fun he => hj he.symm)]

lemma toWidth_notOneULL_testBit_self {w b : Nat} (hb : b < 64) :
    (toWidth w (notOneULL b)).testBit b = false := by
  rw [toWidth, Nat.testBit_mod_two_pow, testBit_notOneULL_self hb]
  simp

/-- C1: for every `int` (w = 32) resp. `long long` (w = 64) pattern `a`
and bit position `b < w`, `checkBit` applied after `clearBit` at the same
position returns 0. -/
theorem checkBit_clearBit (w a b : Nat) (hw : w = 32 ∨ w = 64)
    (ha : a < 2 ^ w) (hb : b < w) :
    checkBit w (clearBit w a b) b = 0 := by
  have hw64 : w ≤ 64 := by rcases hw with h | h <;> omega
  have hb64 : b < 64 := by omega
  have hlt : clearBit w a b < 2 ^ w := Nat.lt_of_le_of_lt Nat.and_le_left ha
  have hcond : toULL w (clearBit w a b) &&& oneULL b = 0 := by
    rw [and_oneULL_eq_zero_iff hb64, testBit_toULL hw64 hlt hb]
    simp [clearBit, Nat.testBit_and, toWidth_notOneULL_testBit_self hb64]
  simp [checkBit, hcond]

/-- Witness for C1 at width 32, value 123456789, position 5. -/
theorem checkBit_clearBit_witness :
    ((32 : Nat) = 32 ∨ (32 : Nat) = 64) ∧ 123456789 < 2 ^ 32 ∧ 5 < 32 ∧
      checkBit 32 (clearBit 32 123456789 5) 5 = 0 :=
  ⟨Or.inl rfl, by norm_num, by norm_num,
    checkBit_clearBit 32 123456789 5 (Or.inl rfl) (by norm_num) (by norm_num)⟩

/-- C2: toggling the same bit twice restores the original value, for both
widths and every position below the width. -/
theorem toggleBit_twice (w a b : Nat) (hw : w = 32 ∨ w = 64)
    (ha : a < 2 ^ w) (hb : b < w) :
    toggleBit w (toggleBit w a b) b = a := by
  simp [toggleBit, Nat.xor_assoc]

/-- Witness for C2 at width 64, value 987654321, position 63. -/
theorem toggleBit_twice_witness :
    ((64 : Nat) = 32 ∨ (64 : Nat) = 64) ∧ 987654321 < 2 ^ 64 ∧ 63 < 64 ∧
      toggleBit 64 (toggleBit 64 987654321 63) 63 = 987654321 :=
  ⟨Or.inr rfl, by norm_num, by norm_num,
    toggleBit_twice 64 987654321 63 (Or.inr rfl) (by norm_num) (by norm_num)⟩

/-- C8: after `setBit` at position `b < w`, `checkBit` at `b` returns 1;
moreover `checkBit` only ever returns 0 or 1. -/
theorem checkBit_setBit (w a b : Nat) (hw : w = 32 ∨ w = 64)
    (ha : a < 2 ^ w) (hb : b < w) :
    checkBit w (setBit w a b) b = 1 ∧
      ∀ w2 a2 b2 : Nat, checkBit w2 a2 b2 = 0 ∨ checkBit w2 a2 b2 = 1 := by
  have hw64 : w ≤ 64 := by rcases hw with h | h <;> omega
  have hb64 : b < 64 := by omega
  have h2b : toWidth w (oneULL b) = 2 ^ b := by
    rw [oneULL_eq hb64, toWidth,
      Nat.mod_eq_of_lt (Nat.pow_lt_pow_right (by norm_num) hb)]
  have hlt : setBit w a b < 2 ^ w := by
    rw [setBit, h2b]
    exact Nat.or_lt_two_pow ha (Nat.pow_lt_pow_right (by norm_num) hb)
  have htb : (setBit w a b).testBit b = true := by
    simp [setBit, h2b, Nat.testBit_or, Nat.testBit_two_pow_self]
  have hcond : toULL w (setBit w a b) &&& oneULL b ≠ 0 := by
    intro h
    rw [and_oneULL_eq_zero_iff hb64, testBit_toULL hw64 hlt hb, htb] at h
    simp at h
  constructor
  · simp [checkBit, hcond]
  · intro w2 a2 b2
    unfold checkBit
    split
    · exact Or.inl rfl
    · exact Or.inr rfl

/-- Witness for C8 at width 32, value 0, position 31. -/
theorem checkBit_setBit_witness :
    ((32 : Nat) = 32 ∨ (32 : Nat) = 64) ∧ 0 < 2 ^ 32 ∧ 31 < 32 ∧
      (checkBit 32 (setBit 32 0 31) 31 = 1 ∧
        ∀ w2 a2 b2 : Nat, checkBit w2 a2 b2 = 0 ∨ checkBit w2 a2 b2 = 1) :=
  ⟨Or.inl rfl, by norm_num, by norm_num,
    checkBit_setBit 32 0 31 (Or.inl rfl) (by norm_num) (by norm_num)⟩

/-- C3: for every non-empty vector, `print` writes the elements in index
order with a single space after every element except the last and exactly
one newline after the last element — no trailing space. -/
theorem print_nonempty_spec (v : List (List Char)) (h : v ≠ []) :
    print v = printSpec v := by
  induction v with
  | nil => exact absurd rfl h
  | cons x t ih =>
    cases t with
    | nil => simp [print, printSpec, List.intersperse_singleton]
    | cons y s =>
      have ht : print (x :: y :: s) = x ++ (' ' :: []) ++ print (y :: s) := by
        simp [print]
      rw [ht, ih (by simp), printSpec, printSpec, List.intersperse_cons_cons]
      simp [List.append_assoc]

/-- Witness for C3 on the two-element vector of renderings of 1 and 23. -/
theorem print_nonempty_spec_witness :
    (['1'] :: ['2', '3'] :: []) ≠ ([] : List (List Char)) ∧
      print (['1'] :: ['2', '3'] :: []) = printSpec (['1'] :: ['2', '3'] :: []) :=
  ⟨by simp, print_nonempty_spec (['1'] :: ['2', '3'] :: []) (by simp)⟩

/-- C9: on the empty vector the loop of `print` performs no iteration, so
nothing at all is written — in particular no newline. -/
theorem print_empty : print [] = [] := rfl

/-- C4: the debug renderer for a pair emits, after whatever is already on
the stream, an opening brace, the rendering of the first component, a
comma and a space, the rendering of the second component, and a closing
brace. -/
theorem cerrPair_renders (ra rb stream : List Char) :
    cerrPair ra rb stream =
      stream ++ ('\x7b' :: (ra ++ (',' :: ' ' :: (rb ++ ('\x7d' :: []))))) := by
  simp [cerrPair, List.append_assoc]

/-- C5: the judge flag toggles the three behaviours — with it, standard
input/output are used, debug emits nothing and no timing line reaches the
error stream; without it, input/output are redirected to the fixed local
files, debug output is emitted and a non-empty timing line is written to
the error stream. -/
theorem onlineJudge_flag_toggles (ms : Nat) (r : List Char) :
    (mainRun true ms).inputFrom = IOChannel.standard ∧
    (mainRun true ms).outputTo = IOChannel.standard ∧
    debugEmits true r = [] ∧
    (mainRun true ms).cerrOut = [] ∧
    (mainRun false ms).inputFrom = IOChannel.file "input.txt" ∧
    (mainRun false ms).outputTo = IOChannel.file "output.txt" ∧
    debugEmits false r = r ∧
    (mainRun false ms).cerrOut = timeLine ms ∧
    0 < (mainRun false ms).cerrOut.length := by
  refine ⟨rfl, rfl, rfl, rfl, rfl, rfl, rfl, rfl, ?_⟩
  simp [mainRun, timeLine]

/-- C6: `solve` has an empty body: it consumes no input, produces no
output and leaves every component of the program state unchanged. -/
theorem solve_is_identity (s : ProgState) :
    solve s = s ∧ (solve s).cinTokens = s.cinTokens ∧
      (solve s).coutText = s.coutText ∧ (solve s).cerrText = s.cerrText :=
  ⟨rfl, rfl, rfl, rfl⟩

/-- C7: a single call of `read` with `n` variables assigns the first `n`
tokens of the input stream to the arguments strictly in left-to-right
order (the i-th token goes to the i-th argument) and leaves exactly the
remaining tokens on the stream. -/
theorem read_assigns_in_order (n : Nat) (cin : List String) (h : n ≤ cin.length) :
    (read n cin).1 = cin.take n ∧ (read n cin).2 = cin.drop n := by
  induction n generalizing cin with
  | zero => simp [read]
  | succ n ih =>
    cases cin with
    | nil => simp at h
    | cons t rest =>
      have h2 : n ≤ rest.length := by
        simp at h
        omega
      obtain ⟨h3, h4⟩ := ih rest h2
      simp [read, h3, h4]

/-- Witness for C7 reading two of three tokens. -/
theorem read_assigns_in_order_witness :
    2 ≤ (["a", "b", "c"] : List String).length ∧
      ((read 2 ["a", "b", "c"]).1 = (["a", "b", "c"] : List String).take 2 ∧
        (read 2 ["a", "b", "c"]).2 = (["a", "b", "c"] : List String).drop 2) :=
  ⟨by simp, read_assigns_in_order 2 ["a", "b", "c"] (by simp)⟩

/-- C10: `amin` assigns the minimum of the old value and the argument,
leaving `x` unchanged whenever `y ≥ x`; `amax` symmetrically assigns the
maximum, leaving `x` unchanged whenever `y ≤ x`. -/
theorem amin_amax_spec {α : Type} [LinearOrder α] (x y : α) :
    amin x y = min x y ∧ (x ≤ y → amin x y = x) ∧
      amax x y = max x y ∧ (y ≤ x → amax x y = x) := by
  refine ⟨?_, ?_, ?_, ?_⟩
  · rw [amin, min_def]
    split_ifs with h1 h2 h2
    · exact absurd h1 (not_lt.mpr h2)
    · rfl
    · rfl
    · exact absurd (not_le.mp h2) (fun hx => h1 hx)
  · intro h
    rw [amin, if_neg (not_lt.mpr h)]
  · rw [amax, max_def]
    split_ifs with h1 h2 h2
    · rfl
    · exact absurd (le_of_lt h1) h2
    · exact le_antisymm h2 (not_lt.mp h1)
    · rfl
  · intro h
    rw [amax, if_neg (not_lt.mpr h)]

/-- Witness for C10 at integer inputs. -/
theorem amin_amax_spec_witness :
    amin (3 : Int) 5 = min 3 5 ∧ amin (3 : Int) 5 = 3 ∧
      amax (3 : Int) 5 = max 3 5 ∧ amax (5 : Int) 3 = 5 :=
  ⟨(amin_amax_spec (3 : Int) 5).1, (amin_amax_spec (3 : Int) 5).2.1 (by norm_num),
    (amin_amax_spec (3 : Int) 5).2.2.1, (amin_amax_spec (5 : Int) 3).2.2.2 (by norm_num)⟩

end Kevin
